import Mathlib

/-!
Verification of the angular layout and gap engine of the sunburst-mindmap
repository (`LayoutCalculator` and `GapManager`).

Modelling conventions:
* JavaScript numbers are modelled by exact rationals `ℚ`.  Every angle the
  code manipulates is a rational multiple of π (the code only ever forms
  `2 * Math.PI`, `gapAngle * Math.PI / 180`, rational linear combinations and
  rational rescalings of these), so angles are represented by their exact
  coefficient of π: the JavaScript value `2 * Math.PI` is the rational `2`,
  and `gapAngle` degrees is `gapAngle / 180`.  The real-valued angle in
  radians of a represented angle `u` is `u * Real.pi` (see `radiansOf`); this
  scaling is injective, so exact equalities of represented angles are exact
  equalities of radian values, and tolerance statements about radians are
  settled with the Mathlib bounds `3 < π < 4`.
* Radii are plain rationals (the code keeps them as ratios in `[0, 1]`).
* A JavaScript node object is `PNode`.  Fields a node may lack
  (`value`, `innerRadius`, `outerRadius`) are `Option`s; a missing field is
  `none`, matching the JavaScript `undefined`.  A comparison of a number
  against `undefined` is `false` in JavaScript, which the embedding mirrors
  (`radiusInRange` below).
* `node.value || 1` is modelled on `Option ℚ`: `none` and `some 0` both fall
  through to `1` (`undefined` and `0` are falsy).
-/

/-- A sunburst node, as the JavaScript code sees it: the original payload
fields that the layout reads (`value`, `children`, the `isGap` marker) plus
the layout fields (`startAngle`, `angleRange`, `depth`, `innerRadius`,
`outerRadius`).  Angles are coefficients of π, radii are ratios. -/
structure PNode where
  value : Option ℚ
  isGap : Bool
  startAngle : ℚ
  angleRange : ℚ
  innerRadius : Option ℚ
  outerRadius : Option ℚ
  depth : ℕ
  children : List PNode

mutual

/-- Decidable equality for `PNode` (the automatic derivation does not handle
the nested `List PNode` field). -/
def PNode.deq : (a b : PNode) → Decidable (a = b)
  | ⟨v1, g1, s1, r1, i1, o1, d1, c1⟩, ⟨v2, g2, s2, r2, i2, o2, d2, c2⟩ =>
    if h : v1 = v2 ∧ g1 = g2 ∧ s1 = s2 ∧ r1 = r2 ∧ i1 = i2 ∧ o1 = o2 ∧ d1 = d2 then
      match PNode.deqList c1 c2 with
      | isTrue hc => isTrue (by
          obtain ⟨h1, h2, h3, h4, h5, h6, h7⟩ := h
          rw [h1, h2, h3, h4, h5, h6, h7, hc])
      | isFalse hc => isFalse (by intro he; cases he; exact hc rfl)
    else isFalse (by intro he; cases he; exact h ⟨rfl, rfl, rfl, rfl, rfl, rfl, rfl⟩)

/-- Decidable equality for lists of `PNode`. -/
def PNode.deqList : (as bs : List PNode) → Decidable (as = bs)
  | [], [] => isTrue rfl
  | [], _ :: _ => isFalse (by intro he; cases he)
  | _ :: _, [] => isFalse (by intro he; cases he)
  | a :: as, b :: bs =>
    match PNode.deq a b with
    | isTrue h1 =>
      match PNode.deqList as bs with
      | isTrue h2 => isTrue (by rw [h1, h2])
      | isFalse h2 => isFalse (by intro he; cases he; exact h2 rfl)
    | isFalse h1 => isFalse (by intro he; cases he; exact h1 rfl)

end

instance : DecidableEq PNode := PNode.deq

instance : Inhabited PNode :=
  ⟨{ value := none, isGap := false, startAngle := 0, angleRange := 0,
     innerRadius := none, outerRadius := none, depth := 0, children := [] }⟩

mutual

/-- The `countNode` closure of `LayoutCalculator.countNodes`: one for the
node plus all nodes of its subtrees.  (Also used below as the termination
measure of the recursions that rewrite node fields.) -/
def countNode : PNode → ℕ
  | .mk _ _ _ _ _ _ _ children => 1 + countForest children

/-- Total node count of a forest. -/
def countForest : List PNode → ℕ
  | [] => 0
  | node :: rest => countNode node + countForest rest

end

/-- `LayoutCalculator.countNodes`: total number of nodes in a node array. -/
def countNodes (nodes : List PNode) : ℕ :=
  countForest nodes

theorem countNode_pos (node : PNode) : 0 < countNode node := by
  cases node
  simp [countNode]

theorem countNode_withAngles (c : PNode) (a b : ℚ) :
    countNode { c with startAngle := a, angleRange := b } = countNode c := by
  cases c
  rfl

theorem countNode_eq (node : PNode) : countNode node = countForest node.children + 1 := by
  cases node
  simp [countNode]
  omega

theorem countForest_filter_le (p : PNode → Bool) (xs : List PNode) :
    countForest (xs.filter p) ≤ countForest xs := by
  induction xs with
  | nil => simp [countForest]
  | cons x rest ih =>
    by_cases hx : p x
    · simp [List.filter, hx, countForest]
      omega
    · simp [List.filter, hx, countForest]
      have := countNode_pos x
      omega

/-- Configuration of `LayoutCalculator` (constructor defaults of the source:
`innerRadius: 0.15, outerRadius: 0.90, gapAngle: 3, maxDepth: 10`).
`gapAngle` is in degrees. -/
structure LayoutOptions where
  innerRadius : ℚ
  outerRadius : ℚ
  gapAngle : ℚ
  maxDepth : ℕ
deriving DecidableEq

/-- The source constructor defaults for `LayoutCalculator`. -/
def lcDefault : LayoutOptions :=
  { innerRadius := 15/100, outerRadius := 90/100, gapAngle := 3, maxDepth := 10 }

/-- `LayoutCalculator.calculateNodeWeight`: `weight = node.value || 1`, plus
`children.length * 0.1` when the node has children, clamped from below by
`Math.max(weight, 0.1)`. -/
def calculateNodeWeight (node : PNode) : ℚ :=
  let weight : ℚ :=
    match node.value with
    | some v => if v = 0 then 1 else v
    | none => 1
  let weight : ℚ :=
    if node.children.length > 0 then weight + (node.children.length : ℚ) * (1/10)
    else weight
  max weight (1/10)

/-- `LayoutCalculator.calculateTotalWeight`: sum of `calculateNodeWeight`
over a node array. -/
def calculateTotalWeight (nodes : List PNode) : ℚ :=
  nodes.foldl (fun total node => total + calculateNodeWeight node) 0

/-- The `layout` record threaded through `createLayoutNode` (its second
argument in the source). -/
structure LayoutParams where
  startAngle : ℚ
  angleRange : ℚ
  depth : ℕ
  innerRadius : ℚ
  outerRadius : ℚ
deriving DecidableEq

mutual

/-- `LayoutCalculator.createLayoutNode`: copies the node, overwrites the five
layout fields from `layout`, and when the node has children lays them out
recursively: the child ring is `radiusStep = (outer − inner) / (maxDepth + 1)`
thick, starting at `inner + radiusStep * childDepth`; the children share
`angleRange − gapRadians * children.length` proportionally to weight, starting
at `layout.startAngle`, with one `gapRadians` advance between consecutive
children (none after the last). -/
def createLayoutNode (opts : LayoutOptions) (node : PNode) (layout : LayoutParams) :
    PNode :=
  match node with
  | .mk v g _ _ _ _ _ children =>
    if children.length > 0 then
      let childDepth := layout.depth + 1
      let radiusStep := (layout.outerRadius - layout.innerRadius) / ((opts.maxDepth : ℚ) + 1)
      let childInnerRadius := layout.innerRadius + radiusStep * (childDepth : ℚ)
      let childOuterRadius := childInnerRadius + radiusStep
      let childTotalWeight := calculateTotalWeight children
      let gapRadians := opts.gapAngle / 180
      let availableAngle := layout.angleRange - gapRadians * (children.length : ℚ)
      { value := v, isGap := g
        startAngle := layout.startAngle, angleRange := layout.angleRange
        depth := layout.depth
        innerRadius := some layout.innerRadius, outerRadius := some layout.outerRadius
        children := layoutChildren opts childTotalWeight gapRadians availableAngle
          childInnerRadius childOuterRadius childDepth layout.startAngle children }
    else
      { value := v, isGap := g
        startAngle := layout.startAngle, angleRange := layout.angleRange
        depth := layout.depth
        innerRadius := some layout.innerRadius, outerRadius := some layout.outerRadius
        children := children }

/-- The `node.children.forEach` loop of `createLayoutNode` (also the
`nodes.forEach` loop of `calculateLayout`, which is the same loop at depth 0):
threads `currentAngle`, gives each child `(weight / totalWeight) *
availableAngle`, and advances by an extra `gapRadians` between consecutive
children only. -/
def layoutChildren (opts : LayoutOptions) (totalWeight gapRadians availableAngle
    childInner childOuter : ℚ) (childDepth : ℕ) (currentAngle : ℚ) :
    List PNode → List PNode
  | [] => []
  | child :: rest =>
    let childWeight := calculateNodeWeight child
    let childAngleRange := childWeight / totalWeight * availableAngle
    let placed := createLayoutNode opts child
      { startAngle := currentAngle, angleRange := childAngleRange,
        depth := childDepth, innerRadius := childInner, outerRadius := childOuter }
    let nextAngle :=
      if rest.isEmpty then currentAngle + childAngleRange
      else currentAngle + childAngleRange + gapRadians
    placed :: layoutChildren opts totalWeight gapRadians availableAngle
      childInner childOuter childDepth nextAngle rest

end

/-- `LayoutCalculator.calculateLayout`: for the top-level node array, total
weight of all nodes, `availableAngle = 2π − gapRadians * nodes.length`, and
the same forEach loop starting at angle 0, depth 0, with the configured
radius bounds.  (The memoization cache is omitted: it returns the identical
result for the identical key.) -/
def calculateLayout (opts : LayoutOptions) (nodes : List PNode) : List PNode :=
  if nodes.isEmpty then []
  else
    let totalWeight := calculateTotalWeight nodes
    let gapRadians := opts.gapAngle / 180
    let availableAngle := 2 - gapRadians * (nodes.length : ℚ)
    layoutChildren opts totalWeight gapRadians availableAngle
      opts.innerRadius opts.outerRadius 0 0 nodes

/-- A raw input node with a given `value` and children, before layout: the
geometry fields are the JavaScript `undefined`/absent state (angles 0 here,
since the layout never reads them; radii `none`). -/
def rawNode (v : Option ℚ) (cs : List PNode) : PNode :=
  { value := v, isGap := false, startAngle := 0, angleRange := 0,
    innerRadius := none, outerRadius := none, depth := 0, children := cs }

/-!
## GapManager
-/

/-- Configuration of `GapManager` (constructor defaults of the source:
`gapAngle: 3, enableGaps: true, minChildrenForGap: 2`; the purely cosmetic
`gapColor`/`gapOpacity` fields are not modelled). -/
structure GapOptions where
  gapAngle : ℚ
  enableGaps : Bool
  minChildrenForGap : ℕ
deriving DecidableEq

/-- The source constructor defaults for `GapManager`. -/
def gmDefault : GapOptions :=
  { gapAngle := 3, enableGaps := true, minChildrenForGap := 2 }

/-- `GapManager.createGapNode`: the synthetic gap node (`name: '', value: 0,
children: [], isGap: true`); it carries `startAngle`/`angleRange` but no
`innerRadius`/`outerRadius` fields, hence `none` radii here.  The cosmetic
fields (`itemStyle`, `label`, …) and the `gapNodes` bookkeeping map are not
modelled. -/
def createGapNode (startAngle angleRange : ℚ) : PNode :=
  { value := some 0, isGap := true, startAngle := startAngle,
    angleRange := angleRange, innerRadius := none, outerRadius := none,
    depth := 0, children := [] }

mutual

/-- The `processNode` closure of `GapManager.insertGaps`: a node with fewer
than `minChildrenForGap` children is returned as is; otherwise every child is
overwritten with the equal share `(parentAngleRange − gapRadians * n) / n`,
placed sequentially from `parentStartAngle`, recursively processed, and a gap
node of width `gapRadians` is spliced in after every child but the last.
(The JavaScript mutates the child and `node.children` in place and returns
the same object; this function computes the resulting tree value, which is
both the return value and the post-call state of the argument.) -/
def processNode (gapRadians : ℚ) (minChildren : ℕ) (node : PNode)
    (parentAngleRange parentStartAngle : ℚ) : PNode :=
  match node with
  | .mk v g sa ar ir od d children =>
    if children.length < minChildren then .mk v g sa ar ir od d children
    else
      let childrenCount := children.length
      let totalGapAngle := gapRadians * (childrenCount : ℚ)
      let childAngle := (parentAngleRange - totalGapAngle) / (childrenCount : ℚ)
      .mk v g sa ar ir od d
        (gapChildren gapRadians minChildren childAngle parentStartAngle children)
termination_by 2 * countNode node
decreasing_by
  all_goals simp [countForest, countNode_eq, countNode_withAngles]
  all_goals omega

/-- The `node.children.forEach` loop of `processNode`: assigns each child its
angles, recurses, and inserts a gap node after every child except the last. -/
def gapChildren (gapRadians : ℚ) (minChildren : ℕ) (childAngle currentAngle : ℚ) :
    (xs : List PNode) → List PNode
  | [] => []
  | child :: rest =>
    let assigned : PNode :=
      { child with startAngle := currentAngle, angleRange := childAngle }
    let processed := processNode gapRadians minChildren assigned childAngle currentAngle
    if rest.isEmpty then [processed]
    else
      processed :: createGapNode (currentAngle + childAngle) gapRadians ::
        gapChildren gapRadians minChildren childAngle
          (currentAngle + childAngle + gapRadians) rest
termination_by xs => 2 * countForest xs + 1
decreasing_by
  all_goals simp [countForest, countNode_eq, countNode_withAngles]
  all_goals omega

end

/-- `GapManager.insertGaps`: identity when gaps are disabled or the gap angle
is nonpositive; otherwise maps `processNode` over the forest with the default
arguments `parentAngleRange = 2π`, `parentStartAngle = 0` — regardless of the
top-level nodes' own `angleRange`. -/
def insertGaps (opts : GapOptions) (data : List PNode) : List PNode :=
  if !opts.enableGaps || opts.gapAngle ≤ 0 then data
  else
    let gapRadians := opts.gapAngle / 180
    data.map (fun node => processNode gapRadians opts.minChildrenForGap node 2 0)

mutual

/-- The `removeGapsFromNode` closure of `GapManager.removeGaps`: filters out
`isGap` children, then redistributes the node's own `angleRange` evenly over
the remaining real children (child `i` starts at
`node.startAngle + childAngle * i`), recursing into each. -/
def removeGapsFromNode (node : PNode) : PNode :=
  match node with
  | .mk v g sa ar ir od d children =>
    let realChildren := children.filter (fun c => !c.isGap)
    if realChildren.length > 0 then
      let childAngle := ar / (realChildren.length : ℚ)
      .mk v g sa ar ir od d (removeGapsChildren sa childAngle 0 realChildren)
    else
      .mk v g sa ar ir od d realChildren
termination_by 2 * countNode node
decreasing_by
  all_goals simp [countForest, countNode_eq, countNode_withAngles]
  all_goals
    have := countForest_filter_le (fun c => !c.isGap) children
    omega

/-- The `realChildren.forEach` loop of `removeGapsFromNode`, indexed. -/
def removeGapsChildren (parentStart childAngle : ℚ) (index : ℕ) :
    (xs : List PNode) → List PNode
  | [] => []
  | child :: rest =>
    removeGapsFromNode
      { child with startAngle := parentStart + childAngle * (index : ℚ),
                   angleRange := childAngle } ::
      removeGapsChildren parentStart childAngle (index + 1) rest
termination_by xs => 2 * countForest xs + 1
decreasing_by
  all_goals simp [countForest, countNode_eq, countNode_withAngles]
  all_goals omega

end

/-- `GapManager.removeGaps`: maps `removeGapsFromNode` over the forest. -/
def removeGaps (data : List PNode) : List PNode :=
  data.map removeGapsFromNode

/-!
## Hit-testing
-/

/-- The angle test of `LayoutCalculator.findNodeByPolar`: when
`startAngle ≤ startAngle + angleRange` the point angle must lie inside the
closed interval, otherwise (wraparound, i.e. negative `angleRange`) outside
the open complement. -/
def angleInRange (node : PNode) (angle : ℚ) : Bool :=
  let angleStart := node.startAngle
  let angleEnd := node.startAngle + node.angleRange
  if angleStart ≤ angleEnd then angleStart ≤ angle ∧ angle ≤ angleEnd
  else angle ≥ angleStart ∨ angle ≤ angleEnd

/-- The radius test of `LayoutCalculator.findNodeByPolar`:
`radiusRatio >= node.innerRadius && radiusRatio <= node.outerRadius`.  In
JavaScript a numeric comparison against an absent (`undefined`) field is
`false`, so a node missing either radius bound — in particular every gap node
made by `createGapNode` — never passes. -/
def radiusInRange (node : PNode) (r : ℚ) : Bool :=
  match node.innerRadius, node.outerRadius with
  | some i, some o => i ≤ r ∧ r ≤ o
  | _, _ => false

/-- `LayoutCalculator.findNodeByPolar`: scans the node array in order; on the
first node whose angle and radius tests both pass, recurses into its
children, returning the child hit if any and otherwise the node itself;
returns `null` when no node passes. -/
def findNodeByPolar (angle r : ℚ) : (nodes : List PNode) → Option PNode
  | [] => none
  | node :: rest =>
    if angleInRange node angle ∧ radiusInRange node r then
      match findNodeByPolar angle r node.children with
      | some childResult => some childResult
      | none => some node
    else
      findNodeByPolar angle r rest
termination_by nodes => countForest nodes
decreasing_by
  all_goals simp [countForest, countNode_eq, countNode_withAngles]
  all_goals omega

/-!
## Auxiliary observers
-/

/-- Sum of `angleRange` over a list of nodes (the quantity whose conservation
the spec asserts; also the sum checked by `validateLayout` at top level). -/
def sumAngleRange (nodes : List PNode) : ℚ :=
  (nodes.map PNode.angleRange).sum

mutual

/-- All parent/child pairs of the subtree rooted at a node. -/
def nodePairs : PNode → List (PNode × PNode)
  | .mk v g sa ar ir od d children =>
    (children.map (fun c => (.mk v g sa ar ir od d children, c))) ++
      pairsBelow children

/-- All parent/child pairs strictly inside the subtrees of a node list. -/
def pairsBelow : List PNode → List (PNode × PNode)
  | [] => []
  | node :: rest => nodePairs node ++ pairsBelow rest

end

/-- All parent/child pairs of a forest. -/
def forestPairs (nodes : List PNode) : List (PNode × PNode) :=
  pairsBelow nodes

/-- Number of gap nodes directly among a node list (the quantity
`GapManager.getGapStats` counts per node). -/
def countGapChildren (nodes : List PNode) : ℕ :=
  (nodes.filter (fun c => c.isGap)).length

/-!
## Concrete inputs for the claims
-/

/-- Layout options with the scenario gap of 10 degrees. -/
def lc10 : LayoutOptions :=
  { innerRadius := 15/100, outerRadius := 90/100, gapAngle := 10, maxDepth := 10 }

/-- Layout options with `maxDepth := 1`. -/
def lcMax1 : LayoutOptions :=
  { innerRadius := 15/100, outerRadius := 90/100, gapAngle := 3, maxDepth := 1 }

/-- The scenario forest: two sibling leaves of value 1 and 3. -/
def twoLeaves : List PNode :=
  [rawNode (some 1) [], rawNode (some 3) []]

/-- A forest of a two-child branch and a leaf. -/
def branchAndLeaf : List PNode :=
  [rawNode none [rawNode none [], rawNode none []], rawNode none []]

/-- A three-level chain. -/
def chain3 : List PNode :=
  [rawNode none [rawNode none [rawNode none []]]]

/-- A single root whose two children are the scenario leaves. -/
def parentTwoLeaves : List PNode :=
  [rawNode none [rawNode (some 1) [], rawNode (some 3) []]]

/-- Layout options with a gap of 181 degrees (over half the circle). -/
def lc181 : LayoutOptions :=
  { innerRadius := 15/100, outerRadius := 90/100, gapAngle := 181, maxDepth := 10 }

/-!
## Lemmas about `GapManager.processNode`
-/

theorem sumAngleRange_nil : sumAngleRange [] = 0 := rfl

theorem sumAngleRange_cons (x : PNode) (xs : List PNode) :
    sumAngleRange (x :: xs) = x.angleRange + sumAngleRange xs := by
  simp [sumAngleRange]

theorem processNode_surface (g : ℚ) (m : ℕ) (node : PNode) (pr ps : ℚ) :
    (processNode g m node pr ps).angleRange = node.angleRange ∧
    (processNode g m node pr ps).startAngle = node.startAngle := by
  cases node with
  | mk v gg sa ar ir od d children =>
    by_cases h : children.length < m <;> simp [processNode, h]

theorem gapChildren_singleton (g : ℚ) (m : ℕ) (ca cur : ℚ) (x : PNode) :
    gapChildren g m ca cur [x] =
      [processNode g m { x with startAngle := cur, angleRange := ca } ca cur] := by
  rw [gapChildren]
  simp

theorem gapChildren_cons_cons (g : ℚ) (m : ℕ) (ca cur : ℚ) (x y : PNode)
    (rest : List PNode) :
    gapChildren g m ca cur (x :: y :: rest) =
      processNode g m { x with startAngle := cur, angleRange := ca } ca cur ::
        createGapNode (cur + ca) g ::
        gapChildren g m ca (cur + ca + g) (y :: rest) := by
  rw [gapChildren]
  simp

theorem sumAngleRange_gapChildren (g : ℚ) (m : ℕ) (ca : ℚ) (xs : List PNode) :
    ∀ cur : ℚ, xs ≠ [] →
      sumAngleRange (gapChildren g m ca cur xs)
        = (xs.length : ℚ) * ca + ((xs.length : ℚ) - 1) * g := by
  induction xs with
  | nil => intro cur h; exact absurd rfl h
  | cons x rest ih =>
    intro cur _
    have h1 : (processNode g m { x with startAngle := cur, angleRange := ca }
        ca cur).angleRange = ca := by
      simpa using (processNode_surface g m
        { x with startAngle := cur, angleRange := ca } ca cur).1
    cases rest with
    | nil =>
      rw [gapChildren_singleton, sumAngleRange_cons, sumAngleRange_nil, h1]
      simp only [List.length_singleton]
      push_cast
      ring
    | cons y rest2 =>
      rw [gapChildren_cons_cons, sumAngleRange_cons, sumAngleRange_cons, h1,
        ih (cur + ca + g) (by simp)]
      simp only [createGapNode, List.length_cons]
      push_cast
      ring

/-- C1 (amended): angle conservation fails by exactly one gap width.  For
every node processed by `GapManager.insertGaps`'s `processNode` with at least
one child and at least `minChildrenForGap` children, the sum of `angleRange`
over the resulting children (real and gap nodes together) equals
`parentAngleRange − gapRadians`, not the parent's own `angleRange`: the code
reserves `gapRadians * n` but inserts only `n − 1` gaps, and at the top level
`insertGaps` passes `2π` as `parentAngleRange` regardless of the node's
`angleRange`. -/
theorem C1_conservation (g : ℚ) (m : ℕ) (node : PNode) (pr ps : ℚ)
    (hm : m ≤ node.children.length) (h1 : 1 ≤ node.children.length) :
    sumAngleRange (processNode g m node pr ps).children = pr - g := by
  cases node with
  | mk v gg sa ar ir od d children =>
    simp only [PNode.children] at hm h1
    have hnot : ¬ (children.length < m) := by omega
    have hne : children ≠ [] := by
      cases children with
      | nil => simp at h1
      | cons a b => simp
    have hn : ((children.length : ℚ)) ≠ 0 := by
      have : 0 < children.length := by omega
      exact_mod_cast Nat.pos_iff_ne_zero.mp this
    simp only [processNode, hnot, if_false, PNode.children]
    rw [sumAngleRange_gapChildren g m _ children ps hne]
    field_simp
    ring

/-- C1 witness: a node with two children, processed with the default gap of
3° (`1/60` of π) and `parentAngleRange = 2π`, has children whose angle
ranges sum to `2π − gapRadians`. -/
theorem C1_conservation_witness :
    sumAngleRange (processNode (1/60) 2
        (rawNode none [rawNode none [], rawNode none []]) 2 0).children
      = 2 - 1/60 :=
  C1_conservation (1/60) 2 (rawNode none [rawNode none [], rawNode none []]) 2 0
    (by simp [rawNode]) (by simp [rawNode])

/-- C1 counterexample: in the tree obtained by laying out a two-child branch
beside a leaf with the default options and then inserting gaps, the first
root's children's angle ranges (gaps included) sum to `2π − 1/60·π` while the
root's own `angleRange` is `59/55·π`: the difference is `601/660·π ≈ 2.86`
rad, far above the claimed `1e-6` rad tolerance. -/
theorem C1_counterexample :
    sumAngleRange
        (insertGaps gmDefault (calculateLayout lcDefault branchAndLeaf)).headI.children
      - (insertGaps gmDefault (calculateLayout lcDefault branchAndLeaf)).headI.angleRange
      = 601/660 ∧
    (1/1000000 : ℝ) < (601/660 : ℝ) * Real.pi := by
  constructor
  · norm_num [calculateLayout, layoutChildren, createLayoutNode, calculateNodeWeight,
      calculateTotalWeight, insertGaps, processNode, gapChildren, createGapNode,
      sumAngleRange, gmDefault, lcDefault, rawNode, branchAndLeaf]
  · have h3 := Real.pi_gt_three
    nlinarith

/-- C2: evaluation of the code at the claimed scenario.  For two top-level
siblings of weight 1 and 3 with a 10° gap, `calculateLayout` reserves
`gap * n = 20°` (not `gap * (n−1) = 10°`): child A receives
`(360−20)·1/4 = 85°` (`17/36·π`), not the claimed `87.5°` (`35/72·π`), and
the angle ranges total `2π − 1/9·π`, short of `2π` by more than the `0.01`
rad threshold that the code's own `validateLayout` flags as an angle-sum
error. -/
theorem C2_scenario_evaluation :
    (calculateLayout lc10 twoLeaves).headI.angleRange = 17/36 ∧
    (calculateLayout lc10 twoLeaves).headI.startAngle = 0 ∧
    sumAngleRange (calculateLayout lc10 twoLeaves) = 2 - 1/9 ∧
    (17/36 : ℝ) * Real.pi ≠ (35/72 : ℝ) * Real.pi ∧
    (1/100 : ℝ) < (1/9 : ℝ) * Real.pi := by
  refine ⟨?_, ?_, ?_, ?_, ?_⟩
  · norm_num [calculateLayout, layoutChildren, createLayoutNode, calculateNodeWeight,
      calculateTotalWeight, lc10, rawNode, twoLeaves]
  · norm_num [calculateLayout, layoutChildren, createLayoutNode, calculateNodeWeight,
      calculateTotalWeight, lc10, rawNode, twoLeaves]
  · norm_num [calculateLayout, layoutChildren, createLayoutNode, calculateNodeWeight,
      calculateTotalWeight, sumAngleRange, lc10, rawNode, twoLeaves]
  · intro h
    have h2 := mul_right_cancel₀ Real.pi_ne_zero h
    norm_num at h2
  · have h3 := Real.pi_gt_three
    nlinarith

/-- The weight model exactly as the specification words it: `max(w, 0.1)`
where `w` is the node's value when that is a non-zero number and 1
otherwise, plus 0.1 times the number of children. -/
def specNodeWeight (value : Option ℚ) (childCount : ℕ) : ℚ :=
  max ((match value with
        | some v => if v = 0 then 1 else v
        | none => 1) + (childCount : ℚ) * (1/10)) (1/10)

/-- C10: the implicit weight model.  `calculateNodeWeight` equals the
spec-worded `specNodeWeight` of the node's value and child count; it is
always at least 0.1; a node of value 0 weighs the same as one with the
default (absent) value; and a positive-valued node with children weighs
strictly more than its raw value (so sector proportions deviate from raw
values). -/
theorem C10_weight_model (node other : PNode) (v : ℚ) :
    calculateNodeWeight node = specNodeWeight node.value node.children.length ∧
    1/10 ≤ calculateNodeWeight node ∧
    calculateNodeWeight { other with value := some 0 }
      = calculateNodeWeight { other with value := none } ∧
    (0 < v → other.children.length ≠ 0 →
      v < calculateNodeWeight { other with value := some v }) := by
  refine ⟨?_, ?_, ?_, ?_⟩
  · cases node with
    | mk w gg sa ar ir od d children =>
      by_cases hl : children.length > 0
      · simp [calculateNodeWeight, specNodeWeight, hl]
      · have h0 : children.length = 0 := by omega
        simp [calculateNodeWeight, specNodeWeight, hl, h0]
  · exact le_max_right _ _
  · cases other with
    | mk w gg sa ar ir od d children =>
      simp [calculateNodeWeight]
  · intro hv hl
    have hvne : v ≠ 0 := ne_of_gt hv
    cases other with
    | mk w gg sa ar ir od d children =>
      simp only [PNode.children] at hl
      have hl2 : 0 < children.length := Nat.pos_of_ne_zero hl
      have hone : (1 : ℚ) ≤ (children.length : ℚ) := by exact_mod_cast hl2
      simp only [calculateNodeWeight, PNode.value, PNode.children, hvne, if_false,
        hl2, if_pos, lt_max_iff]
      left
      nlinarith

theorem gapChildren_length (g : ℚ) (m : ℕ) (ca : ℚ) (xs : List PNode) :
    ∀ cur : ℚ, (gapChildren g m ca cur xs).length = 2 * xs.length - 1 := by
  induction xs with
  | nil => intro cur; simp [gapChildren]
  | cons x rest ih =>
    intro cur
    cases rest with
    | nil => rw [gapChildren_singleton]; simp
    | cons y rest2 =>
      rw [gapChildren_cons_cons]
      have := ih (cur + ca + g)
      simp only [List.length_cons, this]
      omega

/-- C9 (amended): `insertGaps` splices a gap node between every two
consecutive children — a processed node with `n ≥ minChildrenForGap`
children ends up with `2n − 1` children — but it is not a pure transform:
the JavaScript `processNode` assigns `child.startAngle`, `child.angleRange`
and `node.children` in place and returns the same objects, so after the call
the argument tree equals the returned gapped tree rather than its original
value. -/
theorem C9_gap_splice (g : ℚ) (m : ℕ) (node : PNode) (pr ps : ℚ)
    (hm : m ≤ node.children.length) :
    (processNode g m node pr ps).children.length = 2 * node.children.length - 1 := by
  cases node with
  | mk v gg sa ar ir od d children =>
    simp only [PNode.children] at hm ⊢
    have hnot : ¬ (children.length < m) := by omega
    simp only [processNode, hnot, if_false, PNode.children]
    exact gapChildren_length g m _ children ps

/-- C9 witness: a node with two children gains one gap node: three children
after processing. -/
theorem C9_gap_splice_witness :
    (processNode (1/60) 2 (rawNode none [rawNode none [], rawNode none []])
        2 0).children.length
      = 2 * (rawNode none [rawNode none [], rawNode none []]).children.length - 1 :=
  C9_gap_splice (1/60) 2 (rawNode none [rawNode none [], rawNode none []]) 2 0
    (by simp [rawNode])

/-- C9 counterexample: `insertGaps` does not leave the tree value of its
argument unchanged — on a node with two children it rewrites the children's
angles and splices in a gap node.  Since the JavaScript mutates the very
objects of its argument, the argument after the call differs from the
argument before it. -/
theorem C9_mutation_counterexample :
    insertGaps gmDefault [rawNode none [rawNode none [], rawNode none []]] ≠
      [rawNode none [rawNode none [], rawNode none []]] := by
  norm_num [insertGaps, processNode, gapChildren, createGapNode, gmDefault, rawNode]

/-!
## Lemmas about `GapManager.removeGaps`
-/

theorem removeGapsFromNode_surface (node : PNode) :
    (removeGapsFromNode node).startAngle = node.startAngle ∧
    (removeGapsFromNode node).angleRange = node.angleRange := by
  cases node with
  | mk v gg sa ar ir od d children =>
    by_cases h : 0 < (children.filter (fun c => !c.isGap)).length <;>
      simp [removeGapsFromNode, h]

theorem removeGapsChildren_length (ps ca : ℚ) (xs : List PNode) :
    ∀ i0 : ℕ, (removeGapsChildren ps ca i0 xs).length = xs.length := by
  induction xs with
  | nil => intro i0; simp [removeGapsChildren]
  | cons x rest ih =>
    intro i0
    rw [removeGapsChildren]
    simp [ih (i0 + 1)]

theorem removeGapsChildren_getD (ps ca : ℚ) (xs : List PNode) :
    ∀ (i0 i : ℕ), i < xs.length →
      ((removeGapsChildren ps ca i0 xs).getD i default).startAngle
          = ps + ca * ((i0 + i : ℕ) : ℚ) ∧
      ((removeGapsChildren ps ca i0 xs).getD i default).angleRange = ca := by
  induction xs with
  | nil => intro i0 i h; simp at h
  | cons x rest ih =>
    intro i0 i h
    cases i with
    | zero =>
      rw [removeGapsChildren]
      have hs := removeGapsFromNode_surface
        { x with startAngle := ps + ca * (i0 : ℚ), angleRange := ca }
      simp only [List.getD_cons_zero, hs.1, hs.2]
      constructor
      · simp
      · simp
    | succ j =>
      rw [removeGapsChildren]
      have hj : j < rest.length := by simpa using h
      have := ih (i0 + 1) j hj
      simp only [List.getD_cons_succ, this.1, this.2]
      constructor
      · have : (i0 + 1 + j : ℕ) = (i0 + (j + 1) : ℕ) := by omega
        rw [this]
      · trivial

/-- C4 (amended): `removeGaps` is not an inverse of `insertGaps`: it filters
out the gap nodes and then redistributes each node's `angleRange` evenly
over the remaining real children — child `i` receives
`angleRange / k` starting at `startAngle + (angleRange / k) * i`, where `k`
is the real-child count — regardless of the children's pre-gap (weight
proportional) angles, so `removeGaps (insertGaps x)` generally differs from
`x` by far more than ε. -/
theorem C4_even_redistribution (node : PNode) (i : ℕ)
    (hi : i < (node.children.filter (fun c => !c.isGap)).length) :
    (removeGapsFromNode node).children.length
        = (node.children.filter (fun c => !c.isGap)).length ∧
    ((removeGapsFromNode node).children.getD i default).angleRange
        = node.angleRange / ((node.children.filter (fun c => !c.isGap)).length : ℚ) ∧
    ((removeGapsFromNode node).children.getD i default).startAngle
        = node.startAngle
          + node.angleRange / ((node.children.filter (fun c => !c.isGap)).length : ℚ)
            * (i : ℚ) := by
  cases node with
  | mk v gg sa ar ir od d children =>
    simp only [PNode.children] at hi ⊢
    have hpos : 0 < (children.filter (fun c => !c.isGap)).length := by omega
    have hlen := removeGapsChildren_length sa
      (ar / ((children.filter (fun c => !c.isGap)).length : ℚ))
      (children.filter (fun c => !c.isGap)) 0
    have hget := removeGapsChildren_getD sa
      (ar / ((children.filter (fun c => !c.isGap)).length : ℚ))
      (children.filter (fun c => !c.isGap)) 0 i hi
    simp only [removeGapsFromNode, hpos, if_pos, PNode.children, PNode.angleRange,
      PNode.startAngle]
    refine ⟨hlen, hget.2, ?_⟩
    rw [hget.1]
    simp [mul_comm]

/-- A concrete gapped node: two real leaves with a gap node between them. -/
def c4node : PNode :=
  { value := none, isGap := false, startAngle := 0, angleRange := 2,
    innerRadius := none, outerRadius := none, depth := 0,
    children := [rawNode (some 1) [], createGapNode 1 (1/60), rawNode (some 3) []] }

/-- C4 witness: on `c4node`, `removeGapsFromNode` keeps the two real
children and gives the second one half the parent's range starting at its
midpoint. -/
theorem C4_even_redistribution_witness :
    (removeGapsFromNode c4node).children.length
        = (c4node.children.filter (fun c => !c.isGap)).length ∧
    ((removeGapsFromNode c4node).children.getD 1 default).angleRange
        = c4node.angleRange / ((c4node.children.filter (fun c => !c.isGap)).length : ℚ) ∧
    ((removeGapsFromNode c4node).children.getD 1 default).startAngle
        = c4node.startAngle
          + c4node.angleRange / ((c4node.children.filter (fun c => !c.isGap)).length : ℚ)
            * ((1 : ℕ) : ℚ) :=
  C4_even_redistribution c4node 1
    (by simp [c4node, rawNode, createGapNode])

/-- C4 counterexample: for a root with children of weight 1 and 3 laid out
with the default options, the first child's `angleRange` is `39/80·π`, but
after `removeGaps (insertGaps ·)` it is `119/120·π` (the even share of the
root's range): the round trip misses the original assignment by
`(119/120 − 39/80)·π = (121/240)·π ≈ 1.58` rad, far above ε. -/
theorem C4_roundtrip_counterexample :
    ((calculateLayout lcDefault parentTwoLeaves).headI.children.headI).angleRange
        = 39/80 ∧
    ((removeGaps (insertGaps gmDefault (calculateLayout lcDefault
        parentTwoLeaves))).headI.children.headI).angleRange = 119/120 ∧
    (1/1000000 : ℝ) < ((119/120 : ℝ) - 39/80) * Real.pi := by
  refine ⟨?_, ?_, ?_⟩
  · norm_num [calculateLayout, layoutChildren, createLayoutNode, calculateNodeWeight,
      calculateTotalWeight, lcDefault, rawNode, parentTwoLeaves]
  · norm_num [calculateLayout, layoutChildren, createLayoutNode, calculateNodeWeight,
      calculateTotalWeight, insertGaps, processNode, gapChildren, createGapNode,
      removeGaps, removeGapsFromNode, removeGapsChildren,
      gmDefault, lcDefault, rawNode, parentTwoLeaves]
  · have h3 := Real.pi_gt_three
    nlinarith

/-!
## Lemmas about `LayoutCalculator.createLayoutNode`
-/

theorem createLayoutNode_surface (opts : LayoutOptions) (node : PNode)
    (p : LayoutParams) :
    (createLayoutNode opts node p).startAngle = p.startAngle ∧
    (createLayoutNode opts node p).angleRange = p.angleRange ∧
    (createLayoutNode opts node p).depth = p.depth ∧
    (createLayoutNode opts node p).innerRadius = some p.innerRadius ∧
    (createLayoutNode opts node p).outerRadius = some p.outerRadius := by
  cases node with
  | mk v gg sa ar ir od d children =>
    by_cases h : children.length > 0 <;> simp [createLayoutNode, h]

theorem mem_layoutChildren (opts : LayoutOptions) (tw g av ci co : ℚ) (d : ℕ)
    (xs : List PNode) :
    ∀ (cur : ℚ) (c : PNode), c ∈ layoutChildren opts tw g av ci co d cur xs →
      ∃ raw sa, raw ∈ xs ∧
        c = createLayoutNode opts raw
          { startAngle := sa, angleRange := calculateNodeWeight raw / tw * av,
            depth := d, innerRadius := ci, outerRadius := co } := by
  induction xs with
  | nil => intro cur c hc; simp [layoutChildren] at hc
  | cons x rest ih =>
    intro cur c hc
    rw [layoutChildren] at hc
    rcases List.mem_cons.1 hc with hhead | htail
    · exact ⟨x, cur, List.mem_cons_self x rest, hhead⟩
    · obtain ⟨raw, sa, hmem, hceq⟩ := ih _ c htail
      exact ⟨raw, sa, List.mem_cons_of_mem x hmem, hceq⟩

theorem calculateTotalWeight_eq (xs : List PNode) :
    calculateTotalWeight xs = (xs.map calculateNodeWeight).sum := by
  have haux : ∀ (ys : List PNode) (a : ℚ),
      ys.foldl (fun total node => total + calculateNodeWeight node) a
        = a + (ys.map calculateNodeWeight).sum := by
    intro ys
    induction ys with
    | nil => intro a; simp
    | cons y rest ih =>
      intro a
      simp only [List.foldl_cons, List.map_cons, List.sum_cons, ih]
      ring
  simpa using haux xs 0

theorem calculateNodeWeight_ge (node : PNode) :
    1/10 ≤ calculateNodeWeight node := by
  cases node with
  | mk v gg sa ar ir od d children => exact le_max_right _ _

theorem calculateTotalWeight_pos (xs : List PNode) (h : xs ≠ []) :
    0 < calculateTotalWeight xs := by
  rw [calculateTotalWeight_eq]
  apply List.sum_pos
  · intro w hw
    obtain ⟨node, _, rfl⟩ := List.mem_map.1 hw
    exact lt_of_lt_of_le (by norm_num) (calculateNodeWeight_ge node)
  · simpa using h

/-- C7 (amended): every sibling laid out by the `forEach` loop of
`createLayoutNode`/`calculateLayout` receives
`angleRange = weight / totalWeight * availableAngle`, which is strictly
positive whenever the available angle is positive (weights are always at
least 0.1); there is no minimum-angle floor in the layout path, so when the
available angle is negative every sibling's `angleRange` is negative
instead. -/
theorem C7_positive_angles (opts : LayoutOptions) (tw g av ci co : ℚ) (d : ℕ)
    (cur : ℚ) (cs : List PNode) (pc : PNode)
    (hav : 0 < av) (htw : tw = calculateTotalWeight cs)
    (hpc : pc ∈ layoutChildren opts tw g av ci co d cur cs) :
    0 < pc.angleRange := by
  obtain ⟨raw, sa, hmem, rfl⟩ := mem_layoutChildren opts tw g av ci co d cs cur pc hpc
  rw [(createLayoutNode_surface opts raw _).2.1]
  have hne : cs ≠ [] := by
    intro hnil
    rw [hnil] at hmem
    simp at hmem
  have htwpos : 0 < tw := htw ▸ calculateTotalWeight_pos cs hne
  have hw : 0 < calculateNodeWeight raw :=
    lt_of_lt_of_le (by norm_num) (calculateNodeWeight_ge raw)
  have := div_pos hw htwpos
  exact mul_pos this hav

/-- C7 witness: a single default-valued leaf placed with total weight 1 and
available angle `π` gets a positive angle range. -/
theorem C7_positive_angles_witness :
    0 < ((layoutChildren lcDefault 1 (1/60) 1 0 1 5 0
        [rawNode none []]).headI).angleRange :=
  C7_positive_angles lcDefault 1 (1/60) 1 0 1 5 0 [rawNode none []]
    ((layoutChildren lcDefault 1 (1/60) 1 0 1 5 0 [rawNode none []]).headI)
    (by norm_num)
    (by norm_num [calculateTotalWeight, calculateNodeWeight, rawNode])
    (by norm_num [layoutChildren, createLayoutNode, calculateNodeWeight, rawNode,
      List.headI])

/-- C7 counterexample: with a configured gap of 181° a child receives the
negative angle range `−61/240·π`: the layout path applies no minimum floor
and happily emits `angleRange ≤ 0` for a real node. -/
theorem C7_negative_angle_counterexample :
    ((calculateLayout lc181 parentTwoLeaves).headI.children.headI).angleRange
        = -(61/240) ∧
    (-(61/240) : ℚ) < 0 := by
  constructor
  · norm_num [calculateLayout, layoutChildren, createLayoutNode, calculateNodeWeight,
      calculateTotalWeight, lc181, rawNode, parentTwoLeaves]
  · norm_num

/-- C6 (amended): there is no clamped `ringFor` contract.  Each node's
children divide that node's own radius range — not the root's — into
`maxDepth + 1` uniform bands, the children at depth `d + 1` occupying the
band offset `(d + 1) · radiusStep` from their parent's inner radius with no
clamping at `maxDepth` and no negative-depth check (depths are naturals by
construction), while a top-level node spans the entire configured
`[innerRadius, outerRadius]` range rather than the innermost band. -/
theorem C6_ring_formula (opts : LayoutOptions) (nodes : List PNode) (node : PNode)
    (p : LayoutParams) :
    (∀ t ∈ calculateLayout opts nodes,
        t.innerRadius = some opts.innerRadius ∧
        t.outerRadius = some opts.outerRadius ∧ t.depth = 0) ∧
    (∀ c ∈ (createLayoutNode opts node p).children,
        c.depth = p.depth + 1 ∧
        c.innerRadius = some (p.innerRadius + (p.outerRadius - p.innerRadius) /
          ((opts.maxDepth : ℚ) + 1) * ((p.depth : ℚ) + 1)) ∧
        c.outerRadius = some (p.innerRadius + (p.outerRadius - p.innerRadius) /
          ((opts.maxDepth : ℚ) + 1) * ((p.depth : ℚ) + 1) +
          (p.outerRadius - p.innerRadius) / ((opts.maxDepth : ℚ) + 1))) := by
  constructor
  · intro t ht
    by_cases he : nodes.isEmpty
    · simp [calculateLayout, he] at ht
    · simp only [calculateLayout, he, Bool.false_eq_true, if_false] at ht
      obtain ⟨raw, sa, _, rfl⟩ := mem_layoutChildren opts _ _ _ _ _ 0 nodes 0 t ht
      have hs := createLayoutNode_surface opts raw
        { startAngle := sa,
          angleRange := calculateNodeWeight raw / calculateTotalWeight nodes *
            (2 - opts.gapAngle / 180 * (nodes.length : ℚ)),
          depth := 0, innerRadius := opts.innerRadius, outerRadius := opts.outerRadius }
      exact ⟨hs.2.2.2.1, hs.2.2.2.2, hs.2.2.1⟩
  · intro c hc
    cases node with
    | mk v gg sa ar ir od d children =>
      by_cases hl : children.length > 0
      · simp only [createLayoutNode, hl, if_pos, PNode.children] at hc
        obtain ⟨raw, sa2, _, rfl⟩ := mem_layoutChildren opts _ _ _ _ _ _ children _ c hc
        have hs := createLayoutNode_surface opts raw
          { startAngle := sa2,
            angleRange := calculateNodeWeight raw / calculateTotalWeight children *
              (p.angleRange - opts.gapAngle / 180 * (children.length : ℚ)),
            depth := p.depth + 1,
            innerRadius := p.innerRadius + (p.outerRadius - p.innerRadius) /
              ((opts.maxDepth : ℚ) + 1) * ((p.depth + 1 : ℕ) : ℚ),
            outerRadius := p.innerRadius + (p.outerRadius - p.innerRadius) /
              ((opts.maxDepth : ℚ) + 1) * ((p.depth + 1 : ℕ) : ℚ) +
              (p.outerRadius - p.innerRadius) / ((opts.maxDepth : ℚ) + 1) }
        refine ⟨hs.2.2.1, ?_, ?_⟩
        · rw [hs.2.2.2.1]
          push_cast
          ring_nf
        · rw [hs.2.2.2.2]
          push_cast
          ring_nf
      · simp only [createLayoutNode, hl, if_neg, PNode.children] at hc
        have h0 : children.length = 0 := by omega
        have : children = [] := List.length_eq_zero.1 h0
        rw [this] at hc
        simp at hc

/-- C6 counterexample: a top-level node spans the whole configured radius
range `[0.15, 0.9]`; the innermost of the `maxDepth + 1 = 11` uniform bands
would instead end at `0.15 + 0.75/11 ≈ 0.218 ≠ 0.9`, so the root does not
occupy the innermost band. -/
theorem C6_root_band_counterexample :
    (calculateLayout lcDefault [rawNode none []]).headI.innerRadius = some (15/100) ∧
    (calculateLayout lcDefault [rawNode none []]).headI.outerRadius = some (90/100) ∧
    ((90 : ℚ)/100) ≠ 15/100 + (90/100 - 15/100) / ((10 : ℚ) + 1) := by
  refine ⟨?_, ?_, by norm_num⟩ <;>
    norm_num [calculateLayout, layoutChildren, createLayoutNode, calculateNodeWeight,
      calculateTotalWeight, lcDefault, rawNode]

theorem layout_count_aux (opts : LayoutOptions) :
    ∀ n : ℕ,
      (∀ (node : PNode) (p : LayoutParams), countNode node ≤ n →
          countNode (createLayoutNode opts node p) = countNode node) ∧
      (∀ (tw g av ci co : ℚ) (d : ℕ) (xs : List PNode) (cur : ℚ),
          countForest xs ≤ n →
          countForest (layoutChildren opts tw g av ci co d cur xs)
            = countForest xs) := by
  intro n
  induction n with
  | zero =>
    constructor
    · intro node p h
      have := countNode_pos node
      omega
    · intro tw g av ci co d xs cur h
      cases xs with
      | nil => simp [layoutChildren]
      | cons x rest =>
        exfalso
        have := countNode_pos x
        simp [countForest] at h
        omega
  | succ n ih =>
    have hnode : ∀ (node : PNode) (p : LayoutParams), countNode node ≤ n + 1 →
        countNode (createLayoutNode opts node p) = countNode node := by
      intro node p hle
      cases node with
      | mk v gg sa ar ir od d children =>
        by_cases hl : children.length > 0
        · have hcf : countForest children ≤ n := by
            have h2 := countNode_eq (PNode.mk v gg sa ar ir od d children)
            simp only [PNode.children] at h2
            omega
          simp only [createLayoutNode, hl, if_pos, countNode]
          rw [ih.2 _ _ _ _ _ _ children _ hcf]
        · simp [createLayoutNode, hl, countNode]
    refine ⟨hnode, ?_⟩
    intro tw g av ci co d xs
    induction xs with
    | nil => intro cur hle; simp [layoutChildren]
    | cons x rest ihx =>
      intro cur hle
      rw [countForest] at hle
      have hfr : 0 ≤ countForest rest := Nat.zero_le _
      have h1 : countNode x ≤ n + 1 := by omega
      have h2 : countForest rest ≤ n + 1 := by omega
      rw [layoutChildren, countForest, countForest, hnode x _ h1, ihx _ h2]

/-- C8 (amended): the layout recursion never truncates: `createLayoutNode`
recurses into every child at every depth (`maxDepth` only sizes the radial
bands), so the laid-out forest has exactly as many nodes as the input for
every configuration — levels beyond `maxDepth` are kept, not dropped, and no
diagnostic exists. -/
theorem C8_no_truncation (opts : LayoutOptions) (nodes : List PNode) :
    countNodes (calculateLayout opts nodes) = countNodes nodes := by
  by_cases he : nodes.isEmpty
  · have : nodes = [] := List.isEmpty_iff.1 he
    rw [this]
    simp [calculateLayout, countNodes, countForest]
  · simp only [calculateLayout, he, Bool.false_eq_true, if_false, countNodes]
    exact (layout_count_aux opts (countForest nodes)).2 _ _ _ _ _ 0 nodes 0 le_rfl

/-- C8 counterexample: with `maxDepth := 1`, laying out a three-level chain
keeps the grandchild, which carries `depth = 2 > maxDepth`: nothing is
truncated or dropped. -/
theorem C8_depth_exceeds_counterexample :
    ((calculateLayout lcMax1 chain3).headI.children.headI.children.headI).depth = 2 ∧
    lcMax1.maxDepth < 2 := by
  constructor
  · norm_num [calculateLayout, layoutChildren, createLayoutNode, calculateNodeWeight,
      calculateTotalWeight, lcMax1, rawNode, chain3]
  · norm_num [lcMax1]

/-!
## Lemmas for radius nesting
-/

theorem mem_pairsBelow (xs : List PNode) (q : PNode × PNode) :
    q ∈ pairsBelow xs ↔ ∃ c, c ∈ xs ∧ q ∈ nodePairs c := by
  induction xs with
  | nil => simp [pairsBelow]
  | cons x rest ih =>
    rw [pairsBelow]
    simp [List.mem_append, ih]

theorem countNode_le_of_mem (x : PNode) (xs : List PNode) (h : x ∈ xs) :
    countNode x ≤ countForest xs := by
  induction xs with
  | nil => simp at h
  | cons y rest ih =>
    rw [countForest]
    rcases List.mem_cons.1 h with rfl | h2
    · omega
    · have := ih h2
      omega

theorem band_arith (i o : ℚ) (maxD d : ℕ) (hio : i < o) (hd : d < maxD) :
    i ≤ i + (o - i) / ((maxD : ℚ) + 1) * ((d + 1 : ℕ) : ℚ) ∧
    i + (o - i) / ((maxD : ℚ) + 1) * ((d + 1 : ℕ) : ℚ)
      < i + (o - i) / ((maxD : ℚ) + 1) * ((d + 1 : ℕ) : ℚ)
        + (o - i) / ((maxD : ℚ) + 1) ∧
    i + (o - i) / ((maxD : ℚ) + 1) * ((d + 1 : ℕ) : ℚ)
        + (o - i) / ((maxD : ℚ) + 1) ≤ o := by
  have hm : (0 : ℚ) < (maxD : ℚ) + 1 := by positivity
  have hstep : 0 < (o - i) / ((maxD : ℚ) + 1) := div_pos (by linarith) hm
  have hcast : ((d + 1 : ℕ) : ℚ) = (d : ℚ) + 1 := by push_cast; ring
  have hdc : ((d : ℚ) + 1) + 1 ≤ (maxD : ℚ) + 1 := by
    have : (d : ℚ) + 1 ≤ (maxD : ℚ) := by exact_mod_cast Nat.succ_le_of_lt hd
    linarith
  refine ⟨?_, by linarith, ?_⟩
  · have h0 : 0 ≤ (o - i) / ((maxD : ℚ) + 1) * ((d + 1 : ℕ) : ℚ) := by positivity
    linarith
  · have h1 : (o - i) / ((maxD : ℚ) + 1) * (((d : ℚ) + 1) + 1)
        ≤ (o - i) / ((maxD : ℚ) + 1) * ((maxD : ℚ) + 1) :=
      mul_le_mul_of_nonneg_left hdc hstep.le
    have h2 : (o - i) / ((maxD : ℚ) + 1) * ((maxD : ℚ) + 1) = o - i :=
      div_mul_cancel₀ _ (ne_of_gt hm)
    have h3 : (o - i) / ((maxD : ℚ) + 1) * ((d + 1 : ℕ) : ℚ)
          + (o - i) / ((maxD : ℚ) + 1)
        = (o - i) / ((maxD : ℚ) + 1) * (((d : ℚ) + 1) + 1) := by
      rw [hcast]; ring
    linarith

theorem C5_aux (opts : LayoutOptions) :
    ∀ (n : ℕ) (node : PNode) (p : LayoutParams), countNode node ≤ n →
      p.innerRadius < p.outerRadius →
      ∀ q ∈ nodePairs (createLayoutNode opts node p),
        q.1.depth < opts.maxDepth →
        q.1.innerRadius.getD 0 ≤ q.2.innerRadius.getD 0 ∧
        q.2.innerRadius.getD 0 < q.2.outerRadius.getD 0 ∧
        q.2.outerRadius.getD 0 ≤ q.1.outerRadius.getD 0 := by
  intro n
  induction n with
  | zero =>
    intro node p hc
    have := countNode_pos node
    omega
  | succ n ih =>
    intro node p hc hio q hq hdep
    cases node with
    | mk v gg sa ar ir od dd children =>
      by_cases hl : children.length > 0
      · have hunfold : createLayoutNode opts (PNode.mk v gg sa ar ir od dd children) p
            = PNode.mk v gg p.startAngle p.angleRange (some p.innerRadius)
                (some p.outerRadius) p.depth
                (layoutChildren opts (calculateTotalWeight children)
                  (opts.gapAngle / 180)
                  (p.angleRange - opts.gapAngle / 180 * (children.length : ℚ))
                  (p.innerRadius + (p.outerRadius - p.innerRadius) /
                    ((opts.maxDepth : ℚ) + 1) * ((p.depth + 1 : ℕ) : ℚ))
                  (p.innerRadius + (p.outerRadius - p.innerRadius) /
                    ((opts.maxDepth : ℚ) + 1) * ((p.depth + 1 : ℕ) : ℚ) +
                    (p.outerRadius - p.innerRadius) / ((opts.maxDepth : ℚ) + 1))
                  (p.depth + 1) p.startAngle children) := by
          simp [createLayoutNode, hl]
        have hband := band_arith p.innerRadius p.outerRadius opts.maxDepth p.depth hio
        rw [hunfold, nodePairs] at hq
        rcases List.mem_append.1 hq with hdir | hdeep
        · obtain ⟨c, hcL, rfl⟩ := List.mem_map.1 hdir
          obtain ⟨raw, sa2, _, rfl⟩ :=
            mem_layoutChildren opts _ _ _ _ _ _ children _ c hcL
          have hs := createLayoutNode_surface opts raw
            { startAngle := sa2,
              angleRange := calculateNodeWeight raw / calculateTotalWeight children *
                (p.angleRange - opts.gapAngle / 180 * (children.length : ℚ)),
              depth := p.depth + 1,
              innerRadius := p.innerRadius + (p.outerRadius - p.innerRadius) /
                ((opts.maxDepth : ℚ) + 1) * ((p.depth + 1 : ℕ) : ℚ),
              outerRadius := p.innerRadius + (p.outerRadius - p.innerRadius) /
                ((opts.maxDepth : ℚ) + 1) * ((p.depth + 1 : ℕ) : ℚ) +
                (p.outerRadius - p.innerRadius) / ((opts.maxDepth : ℚ) + 1) }
          have hdep2 : p.depth < opts.maxDepth := by simpa using hdep
          have hb := hband hdep2
          rw [hs.2.2.2.1, hs.2.2.2.2]
          simpa using hb
        · obtain ⟨c, hcL, hq2⟩ := (mem_pairsBelow _ _).1 hdeep
          obtain ⟨raw, sa2, hraw, rfl⟩ :=
            mem_layoutChildren opts _ _ _ _ _ _ children _ c hcL
          have hcn : countNode raw ≤ n := by
            have h1 := countNode_le_of_mem raw children hraw
            have h2 := countNode_eq (PNode.mk v gg sa ar ir od dd children)
            simp only [PNode.children] at h2
            omega
          refine ih raw
            { startAngle := sa2,
              angleRange := calculateNodeWeight raw / calculateTotalWeight children *
                (p.angleRange - opts.gapAngle / 180 * (children.length : ℚ)),
              depth := p.depth + 1,
              innerRadius := p.innerRadius + (p.outerRadius - p.innerRadius) /
                ((opts.maxDepth : ℚ) + 1) * ((p.depth + 1 : ℕ) : ℚ),
              outerRadius := p.innerRadius + (p.outerRadius - p.innerRadius) /
                ((opts.maxDepth : ℚ) + 1) * ((p.depth + 1 : ℕ) : ℚ) +
                (p.outerRadius - p.innerRadius) / ((opts.maxDepth : ℚ) + 1) }
            hcn ?_ q hq2 hdep
          by_cases hdm : p.depth < opts.maxDepth
          · exact (hband hdm).2.1
          · -- the step is positive regardless of the depth bound
            have hm : (0 : ℚ) < (opts.maxDepth : ℚ) + 1 := by positivity
            have hstep : 0 < (p.outerRadius - p.innerRadius) /
                ((opts.maxDepth : ℚ) + 1) := div_pos (by linarith) hm
            simp only []
            linarith
      · have h0 : children = [] := List.length_eq_zero.1 (by omega)
        subst h0
        simp [createLayoutNode, nodePairs, pairsBelow] at hq

/-- C5 (amended): radius nesting holds by construction only down to the
configured depth.  For every parent/child pair of a forest laid out by
`calculateLayout` (with a non-degenerate configured radius range), if the
parent's depth is below `maxDepth` then
`parent.inner ≤ child.inner < child.outer ≤ parent.outer`; at depths from
`maxDepth` on, the child band walks past the parent's outer radius (see the
counterexample), so the invariant does not hold at arbitrary depth. -/
theorem C5_radius_nesting (opts : LayoutOptions) (nodes : List PNode)
    (q : PNode × PNode) (hio : opts.innerRadius < opts.outerRadius)
    (hq : q ∈ forestPairs (calculateLayout opts nodes))
    (hd : q.1.depth < opts.maxDepth) :
    q.1.innerRadius.getD 0 ≤ q.2.innerRadius.getD 0 ∧
    q.2.innerRadius.getD 0 < q.2.outerRadius.getD 0 ∧
    q.2.outerRadius.getD 0 ≤ q.1.outerRadius.getD 0 := by
  by_cases he : nodes.isEmpty
  · rw [forestPairs] at hq
    simp [calculateLayout, he, pairsBelow] at hq
  · rw [forestPairs] at hq
    simp only [calculateLayout, he, Bool.false_eq_true, if_false] at hq
    obtain ⟨c, hcL, hq2⟩ := (mem_pairsBelow _ _).1 hq
    obtain ⟨raw, sa, _, rfl⟩ := mem_layoutChildren opts _ _ _ _ _ 0 nodes 0 c hcL
    exact C5_aux opts (countNode raw) raw
      { startAngle := sa,
        angleRange := calculateNodeWeight raw / calculateTotalWeight nodes *
          (2 - opts.gapAngle / 180 * (nodes.length : ℚ)),
        depth := 0, innerRadius := opts.innerRadius, outerRadius := opts.outerRadius }
      le_rfl hio q hq2 hd

/-- C5 witness: in the two-leaf layout under the default options, the first
parent/child pair (the root at depth 0 and its first child) is strictly
nested. -/
theorem C5_radius_nesting_witness :
    (forestPairs (calculateLayout lcDefault parentTwoLeaves)).headI.1.innerRadius.getD 0
        ≤ (forestPairs (calculateLayout lcDefault parentTwoLeaves)).headI.2.innerRadius.getD 0 ∧
    (forestPairs (calculateLayout lcDefault parentTwoLeaves)).headI.2.innerRadius.getD 0
        < (forestPairs (calculateLayout lcDefault parentTwoLeaves)).headI.2.outerRadius.getD 0 ∧
    (forestPairs (calculateLayout lcDefault parentTwoLeaves)).headI.2.outerRadius.getD 0
        ≤ (forestPairs (calculateLayout lcDefault parentTwoLeaves)).headI.1.outerRadius.getD 0 :=
  C5_radius_nesting lcDefault parentTwoLeaves
    (forestPairs (calculateLayout lcDefault parentTwoLeaves)).headI
    (by norm_num [lcDefault])
    (by norm_num [calculateLayout, layoutChildren, createLayoutNode,
      calculateNodeWeight, calculateTotalWeight, forestPairs, pairsBelow, nodePairs,
      lcDefault, rawNode, parentTwoLeaves])
    (by norm_num [calculateLayout, layoutChildren, createLayoutNode,
      calculateNodeWeight, calculateTotalWeight, forestPairs, pairsBelow, nodePairs,
      lcDefault, rawNode, parentTwoLeaves])

/-- C5 counterexample: with `maxDepth := 1`, the depth-2 grandchild of a
three-level chain gets the band `[0.9, 87/80]`, whose outer radius exceeds
its parent's outer radius `0.9`: nesting fails beyond the configured depth,
so it is not guaranteed at any depth. -/
theorem C5_nesting_counterexample :
    ((calculateLayout lcMax1 chain3).headI.children.headI.children.headI).outerRadius
        = some (87/80) ∧
    ((calculateLayout lcMax1 chain3).headI.children.headI).outerRadius = some (9/10) ∧
    ¬ ((87 : ℚ)/80 ≤ 9/10) := by
  refine ⟨?_, ?_, by norm_num⟩ <;>
    norm_num [calculateLayout, layoutChildren, createLayoutNode, calculateNodeWeight,
      calculateTotalWeight, lcMax1, rawNode, chain3]

/-!
## Lemmas for hit-testing
-/

theorem radiusInRange_isSome (node : PNode) (r : ℚ)
    (h : radiusInRange node r = true) :
    node.innerRadius.isSome = true ∧ node.outerRadius.isSome = true := by
  cases hi : node.innerRadius with
  | none => rw [radiusInRange, hi] at h; cases ho : node.outerRadius <;> simp at h
  | some i =>
    cases ho : node.outerRadius with
    | none => rw [radiusInRange, hi, ho] at h; simp at h
    | some o => simp

theorem findNodeByPolar_aux (angle r : ℚ) :
    ∀ (n : ℕ) (nodes : List PNode) (res : PNode), countForest nodes ≤ n →
      findNodeByPolar angle r nodes = some res →
      angleInRange res angle = true ∧ radiusInRange res r = true := by
  intro n
  induction n with
  | zero =>
    intro nodes res hc hfound
    cases nodes with
    | nil => rw [findNodeByPolar] at hfound; cases hfound
    | cons x rest =>
      exfalso
      have := countNode_pos x
      rw [countForest] at hc
      omega
  | succ n ih =>
    intro nodes res hc hfound
    cases nodes with
    | nil => rw [findNodeByPolar] at hfound; cases hfound
    | cons node rest =>
      rw [findNodeByPolar] at hfound
      rw [countForest] at hc
      by_cases hcond : angleInRange node angle = true ∧ radiusInRange node r = true
      · rw [if_pos hcond] at hfound
        cases hm : findNodeByPolar angle r node.children with
        | some cres =>
          rw [hm] at hfound
          have hres : cres = res := by injection hfound
          subst hres
          have hcc : countForest node.children ≤ n := by
            have := countNode_eq node
            omega
          exact ih node.children cres hcc hm
        | none =>
          rw [hm] at hfound
          have hres : node = res := by injection hfound
          subst hres
          exact hcond
      · rw [if_neg hcond] at hfound
        have hcr : countForest rest ≤ n := by
          have := countNode_pos node
          omega
        exact ih rest res hcr hfound

/-- C3 (amended): any node returned by `findNodeByPolar` passed both the
angle test and the radius test; in particular it carries both radius bounds,
so the gap nodes synthesized by `createGapNode` — which have no
`innerRadius`/`outerRadius` — are never returned.  The rest of the original
claim fails: `null` is not reserved for `radiusRatio > 1` (the search also
returns `null` for in-bounds points no real sector covers, such as the
centre hole below every node's inner radius), and a point on a gap does not
reliably resolve to the nearest enclosing real ancestor — `insertGaps`
re-tiles each level over `[0, 2π)` while leaving the top-level nodes' own
angles intact, so sectors of different branches overlap and the depth-first
scan can return an unrelated node instead; the counterexample shows both. -/
theorem C3_hit_bounds (angle r : ℚ) (nodes : List PNode) (res : PNode)
    (hfound : findNodeByPolar angle r nodes = some res) :
    angleInRange res angle = true ∧ radiusInRange res r = true ∧
    res.innerRadius.isSome = true ∧ res.outerRadius.isSome = true := by
  obtain ⟨ha, hr⟩ := findNodeByPolar_aux angle r (countForest nodes) nodes res
    le_rfl hfound
  obtain ⟨hi, ho⟩ := radiusInRange_isSome res r hr
  exact ⟨ha, hr, hi, ho⟩

/-- The placed node a default single-leaf layout produces. -/
def c3res : PNode :=
  { value := none, isGap := false, startAngle := 0, angleRange := 2 - 1/60,
    innerRadius := some (15/100), outerRadius := some (90/100), depth := 0,
    children := [] }

/-- C3 witness: the point at angle 0 and radius ratio `1/2` in a single-leaf
default layout hits the leaf's sector, which passes both tests and carries
both radius bounds. -/
theorem C3_hit_bounds_witness :
    angleInRange c3res 0 = true ∧ radiusInRange c3res (1/2) = true ∧
    c3res.innerRadius.isSome = true ∧ c3res.outerRadius.isSome = true :=
  C3_hit_bounds 0 (1/2) (calculateLayout lcDefault [rawNode none []]) c3res
    (by norm_num [calculateLayout, layoutChildren, createLayoutNode,
      calculateNodeWeight, calculateTotalWeight, findNodeByPolar, angleInRange,
      radiusInRange, lcDefault, rawNode, c3res])

/-- A forest whose first root A has a leaf child A1 and a branch child A2
with two grandchildren, beside a top-level leaf B. -/
def nestedForest : List PNode :=
  [rawNode none [rawNode none [], rawNode none [rawNode none [], rawNode none []]],
   rawNode none []]

/-- `nestedForest` laid out with the default options and gapped with the
default gap manager. -/
def c3gapped : List PNode :=
  insertGaps gmDefault (calculateLayout lcDefault nestedForest)

/-- The placed top-level leaf B of `c3gapped`, as the code computes it:
`startAngle = 719/660·π`, `angleRange = 59/66·π`, the full default ring. -/
def c3returned : PNode :=
  { value := none, isGap := false, startAngle := 719/660, angleRange := 59/66,
    innerRadius := some (3/20), outerRadius := some (9/10), depth := 0,
    children := [] }

/-- C3 counterexample, refuting two parts of the claim.  (1) The centre
point (radius ratio 0, angle 0) is in bounds — `radiusRatio ≤ 1` — yet
`findNodeByPolar` returns `null` for a single-leaf default layout, because 0
is below the leaf's inner radius 0.15: `null` is not reserved for
`radiusRatio > 1`.  (2) In `c3gapped`, the point at angle `37/25·π`, radius
ratio `233/1000` lies on the gap between A2's grandchildren (the gap node at
`c3gapped` → root → child 2 → child 1 contains its angle) and strictly
inside the sector of the gap's real ancestor A2 (depth 1, real, both tests
pass), yet the search returns the unrelated top-level leaf B — whose
`startAngle` differs from A2's — because `insertGaps` re-tiled A's children
over `[0, 2π)` while A kept its own narrower angle range, so the scan
rejects A and falls through to the overlapping sector of B: a gap point
does not resolve to the nearest enclosing real ancestor. -/
theorem C3_counterexample :
    (findNodeByPolar 0 0 (calculateLayout lcDefault [rawNode none []]) = none ∧
      (0 : ℚ) ≤ 1) ∧
    findNodeByPolar (37/25) (233/1000) c3gapped = some c3returned ∧
    (c3returned.depth = 0 ∧ c3returned.isGap = false) ∧
    ((c3gapped.headI.children.getD 2 default).isGap = false ∧
      (c3gapped.headI.children.getD 2 default).depth = 1 ∧
      angleInRange (c3gapped.headI.children.getD 2 default) (37/25) = true ∧
      radiusInRange (c3gapped.headI.children.getD 2 default) (233/1000) = true) ∧
    (((c3gapped.headI.children.getD 2 default).children.getD 1 default).isGap = true ∧
      angleInRange ((c3gapped.headI.children.getD 2 default).children.getD 1
        default) (37/25) = true) ∧
    c3returned.startAngle ≠ (c3gapped.headI.children.getD 2 default).startAngle := by
  have heval : c3gapped =
      [{ value := none, isGap := false, startAngle := 0, angleRange := 59/55,
         innerRadius := some (3/20), outerRadius := some (9/10), depth := 0,
         children :=
           [{ value := none, isGap := false, startAngle := 0, angleRange := 59/60,
              innerRadius := some (12/55), outerRadius := some (63/220), depth := 1,
              children := [] },
            { value := some 0, isGap := true, startAngle := 59/60, angleRange := 1/60,
              innerRadius := none, outerRadius := none, depth := 0, children := [] },
            { value := none, isGap := false, startAngle := 1, angleRange := 59/60,
              innerRadius := some (12/55), outerRadius := some (63/220), depth := 1,
              children :=
                [{ value := none, isGap := false, startAngle := 1,
                   angleRange := 19/40, innerRadius := some (279/1210),
                   outerRadius := some (573/2420), depth := 2, children := [] },
                 { value := some 0, isGap := true, startAngle := 59/40,
                   angleRange := 1/60, innerRadius := none, outerRadius := none,
                   depth := 0, children := [] },
                 { value := none, isGap := false, startAngle := 179/120,
                   angleRange := 19/40, innerRadius := some (279/1210),
                   outerRadius := some (573/2420), depth := 2, children := [] }] }] },
       { value := none, isGap := false, startAngle := 719/660, angleRange := 59/66,
         innerRadius := some (3/20), outerRadius := some (9/10), depth := 0,
         children := [] }] := by
    norm_num [c3gapped, calculateLayout, layoutChildren, createLayoutNode,
      calculateNodeWeight, calculateTotalWeight, insertGaps, processNode,
      gapChildren, createGapNode, gmDefault, lcDefault, rawNode, nestedForest]
  refine ⟨⟨?_, by norm_num⟩, ?_, ⟨by norm_num [c3returned], by norm_num [c3returned]⟩,
    ⟨?_, ?_, ?_, ?_⟩, ⟨?_, ?_⟩, ?_⟩
  · norm_num [calculateLayout, layoutChildren, createLayoutNode, calculateNodeWeight,
      calculateTotalWeight, findNodeByPolar, angleInRange, radiusInRange,
      lcDefault, rawNode]
  · rw [heval]
    norm_num [findNodeByPolar, angleInRange, radiusInRange, c3returned]
  · rw [heval]
    norm_num
  · rw [heval]
    norm_num
  · rw [heval]
    norm_num [angleInRange]
  · rw [heval]
    norm_num [radiusInRange]
  · rw [heval]
    norm_num
  · rw [heval]
    norm_num [angleInRange]
  · rw [heval]
    norm_num [c3returned]
